import Mathlib

/-!
Verification of the invoicer repository's week-partitioning, month-resolution
and configuration logic (package `internal/invoice` and `internal/config`).

Dates are modelled as absolute day numbers: days since January 1 of year 1
(proleptic Gregorian, as Go's `time` package computes at UTC); timestamps are
absolute seconds.  Day number 0 (January 1, year 1) is a Monday, so Go's
`Weekday` (Sunday = 0 … Saturday = 6) of day `dn` is `(dn + 1) % 7`.
Go's `float64` hour values are modelled as rationals, and `time.Duration`
(nanoseconds) as seconds: all durations compared by the code are far below
the overflow range, and scaling by 10^9 preserves every comparison.
-/

namespace Invoicer

/-- Leap-year test, as Go's `isLeap`: divisible by 4 and (not by 100 or by 400). -/
def isLeap (y : Int) : Bool := y % 4 == 0 && (y % 100 != 0 || y % 400 == 0)

/-- Days from January 1 of year 1 to January 1 of year `y` (proleptic Gregorian). -/
def daysBeforeYear (y : Int) : Int :=
  365 * (y - 1) + (y - 1) / 4 - (y - 1) / 100 + (y - 1) / 400

/-- Cumulative day count before month `m+1` of a non-leap year, as Go's
`daysBefore` table (index 0 = before January, …, 12 = a whole year). -/
def daysBefore (i : Nat) : Nat :=
  match i with
  | 0 => 0
  | 1 => 31
  | 2 => 59
  | 3 => 90
  | 4 => 120
  | 5 => 151
  | 6 => 181
  | 7 => 212
  | 8 => 243
  | 9 => 273
  | 10 => 304
  | 11 => 334
  | _ => 365

/-- Days from the start of year `y` to the start of month `m` (1-12): the
table entry plus the leap-day adjustment from March onward, as in Go. -/
def daysBeforeMonth (y : Int) (m : Nat) : Nat :=
  daysBefore (m - 1) + (if isLeap y ∧ 3 ≤ m then 1 else 0)

/-- Absolute day number of `time.Date(y, m, d, 0, 0, 0, 0, UTC)`.  As in Go,
the month is first normalized into 1..12 (adjusting the year), and the day may
lie outside the month (it simply offsets from day 1 of the normalized month). -/
def dateToDays (y m d : Int) : Int :=
  let y' := y + (m - 1) / 12
  let m' := ((m - 1) % 12).toNat + 1
  daysBeforeYear y' + (daysBeforeMonth y' m' : Int) + (d - 1)

/-- Go weekday (Sunday = 0 … Saturday = 6) of absolute day `dn`. -/
def weekday (dn : Int) : Int := (dn + 1) % 7

/-- A weekly invoice line item: clamped start and end days and prorated hours
(`invoice.Week` with `time.Time` as day numbers and `float64` as `Rat`). -/
structure Week where
  start : Int
  end_ : Int
  hours : Rat
deriving DecidableEq

/-- Fuel-driven unfolding of the day loop in `countWorkdays`; the guard
`d ≤ e` is the source's loop condition `!d.After(end)`, and the fuel is always
supplied large enough to be irrelevant. -/
def countWorkdaysGo : Nat → Int → Int → Nat
  | 0, _, _ => 0
  | fuel + 1, d, e =>
    if d ≤ e then
      (if 1 ≤ weekday d ∧ weekday d ≤ 5 then 1 else 0) + countWorkdaysGo fuel (d + 1) e
    else 0

/-- `countWorkdays start end`: the number of Monday-Friday days in `[start, end]`. -/
def countWorkdays (s e : Int) : Nat := countWorkdaysGo (e + 1 - s).toNat s e

/-- The clamped week start of the loop body of `WeeksForMonth`: the natural
Monday `wed - 2`, raised to the month's first day when it precedes it. -/
def wStart (firstDay wed : Int) : Int := if wed - 2 < firstDay then firstDay else wed - 2

/-- The clamped week end of the loop body of `WeeksForMonth`: the natural
Sunday `wed + 4`, lowered to the month's last day when it exceeds it. -/
def wEnd (lastDay wed : Int) : Int := if lastDay < wed + 4 then lastDay else wed + 4

/-- The loop body of `WeeksForMonth`: the week whose Wednesday is `wed`,
clamped to `[firstDay, lastDay]`, with hours prorated by workday count. -/
def mkWeek (firstDay lastDay wed : Int) (hoursPerWeek : Rat) : Week :=
  { start := wStart firstDay wed
    end_ := wEnd lastDay wed
    hours := hoursPerWeek * (countWorkdays (wStart firstDay wed) (wEnd lastDay wed) : Rat) / 5 }

/-- Fuel-driven unfolding of the Wednesday loop of `WeeksForMonth`
(`for wed := firstWed; !wed.After(lastDay); wed = wed.AddDate(0, 0, 7)`);
the guard `wed ≤ lastDay` is the source's loop condition. -/
def weeksLoopGo (lastDay firstDay : Int) (hpw : Rat) : Nat → Int → List Week
  | 0, _ => []
  | fuel + 1, wed =>
    if wed ≤ lastDay then
      mkWeek firstDay lastDay wed hpw :: weeksLoopGo lastDay firstDay hpw fuel (wed + 7)
    else []

/-- First day of the month: `time.Date(year, month, 1, …)`. -/
def firstDayOf (year : Int) (month : Nat) : Int := dateToDays year month 1

/-- Last day of the month: `firstDay.AddDate(0, 1, -1)`, i.e. day 0 of the next month. -/
def lastDayOf (year : Int) (month : Nat) : Int := dateToDays year (month + 1) 0

/-- Day offset from the month's first day to the first Wednesday on or after it,
from the first day's weekday `wd`, exactly as computed in `WeeksForMonth`. -/
def daysToFirstWed (wd : Int) : Int := if wd ≤ 3 then 3 - wd else 7 - wd + 3

/-- The first Wednesday on or after the first day of the month. -/
def firstWedOf (year : Int) (month : Nat) : Int :=
  firstDayOf year month + daysToFirstWed (weekday (firstDayOf year month))

/-- `invoice.WeeksForMonth(year, month, hoursPerWeek)`: the weeks whose
Wednesday falls in the given month, clamped to the month and prorated. -/
def WeeksForMonth (year : Int) (month : Nat) (hoursPerWeek : Rat) : List Week :=
  weeksLoopGo (lastDayOf year month) (firstDayOf year month) hoursPerWeek
    (lastDayOf year month + 1 - firstWedOf year month).toNat (firstWedOf year month)

/-- The number of iterations of the Wednesday loop started at `wed`:
one per Wednesday in `[wed, lastDay]` stepping by 7. -/
def nwWeeks (wed lastDay : Int) : Nat :=
  if wed ≤ lastDay then (lastDay - wed).toNat / 7 + 1 else 0

/-- Inverse of `dateToDays`: the (year, month, day) of an absolute day number,
by the standard 400-year-era computation Go's `time.Time.Date` performs.
`dn + 306` is the number of days since March 1 of year 0. -/
def civilFromDays (dn : Int) : Int × Nat × Nat :=
  let z := dn + 306
  let era := z / 146097
  let doe := (z - era * 146097).toNat
  let yoe := (doe - doe / 1460 + doe / 36524 - doe / 146096) / 365
  let doy := doe - (365 * yoe + yoe / 4 - yoe / 100)
  let mp := (5 * doy + 2) / 153
  let d := doy - (153 * mp + 2) / 5 + 1
  let m := if mp < 10 then mp + 3 else mp - 9
  ((era * 400 + yoe : Int) + (if m ≤ 2 then 1 else 0), m, d)

/-- `t.Year()` for a timestamp in absolute seconds. -/
def yearOf (t : Int) : Int := (civilFromDays (t / 86400)).1

/-- `t.Month()` for a timestamp in absolute seconds. -/
def monthOf (t : Int) : Nat := (civilFromDays (t / 86400)).2.1

/-- `t.AddDate(years, months, days)`: reads the date of `t`, offsets its
components, and renormalizes exactly as `time.Date` does (keeping the clock). -/
def addDateGo (t years months days : Int) : Int :=
  let c := civilFromDays (t / 86400)
  dateToDays (c.1 + years) ((c.2.1 : Int) + months) ((c.2.2 : Int) + days) * 86400 + t % 86400

/-- `absDuration` from the source: absolute value of a duration. -/
def absDuration (d : Int) : Int := if d < 0 then -d else d

/-- `closestYear(month, now)`: among now's year (checked first), the previous
year and the next year, the one whose month-start is closest to `now`;
a strictly smaller difference is required to displace the current best. -/
def closestYear (month : Nat) (now : Int) : Int :=
  (List.foldl
    (fun (acc : Int × Int) y =>
      let diff := absDuration (now - dateToDays y month 1 * 86400)
      if diff < acc.2 then (y, diff) else acc)
    (yearOf now, absDuration (now - dateToDays (yearOf now) month 1 * 86400))
    [yearOf now - 1, yearOf now + 1]).1

/-- What `closestYear` guarantees: the result is one of now's year, the
previous or the next; it minimizes the absolute distance from `now` to the
first of the month among these three; and on ties the earlier-checked
candidate survives (now's year first, then the previous, then the next year):
the previous year wins only strictly, and the next year only doubly strictly. -/
def closestYearSpec (month : Nat) (now : Int) : Prop :=
  (closestYear month now = yearOf now - 1 ∨ closestYear month now = yearOf now ∨
    closestYear month now = yearOf now + 1) ∧
  absDuration (now - dateToDays (closestYear month now) month 1 * 86400) ≤
    absDuration (now - dateToDays (yearOf now - 1) month 1 * 86400) ∧
  absDuration (now - dateToDays (closestYear month now) month 1 * 86400) ≤
    absDuration (now - dateToDays (yearOf now) month 1 * 86400) ∧
  absDuration (now - dateToDays (closestYear month now) month 1 * 86400) ≤
    absDuration (now - dateToDays (yearOf now + 1) month 1 * 86400) ∧
  (closestYear month now = yearOf now - 1 →
    absDuration (now - dateToDays (yearOf now - 1) month 1 * 86400) <
      absDuration (now - dateToDays (yearOf now) month 1 * 86400)) ∧
  (closestYear month now = yearOf now + 1 →
    absDuration (now - dateToDays (yearOf now + 1) month 1 * 86400) <
      absDuration (now - dateToDays (yearOf now) month 1 * 86400) ∧
    absDuration (now - dateToDays (yearOf now + 1) month 1 * 86400) <
      absDuration (now - dateToDays (yearOf now - 1) month 1 * 86400))

/-- ASCII lower-casing of one character, as the byte arithmetic in `equalFold`. -/
def foldChar (c : Char) : Char :=
  if 'A' ≤ c ∧ c ≤ 'Z' then Char.ofNat (c.toNat + 32) else c

/-- `equalFold` from the source: equal length and pointwise ASCII
case-insensitive equality.  Go compares bytes; all month names are ASCII,
so comparing characters is faithful. -/
def equalFoldL : List Char → List Char → Bool
  | [], [] => true
  | a :: as, b :: bs => foldChar a == foldChar b && equalFoldL as bs
  | _, _ => false

/-- The month names, as produced by Go's `time.Month.String`. -/
def monthNames : List String :=
  ["January", "February", "March", "April", "May", "June", "July",
   "August", "September", "October", "November", "December"]

/-- The name of month `m` (1-12). -/
def monthName (m : Nat) : String := monthNames.getD (m - 1) ""

/-- Characters `fmt.Sscanf` skips before a `%d` verb: Go's `fmt` space table
(0x09-0x0D, space, U+0085, U+00A0, U+1680, U+2000-U+200A, U+2028-U+2029,
U+202F, U+205F, U+3000), except the newline 0x0A, which `Sscanf` reports as an
"unexpected newline" error instead of skipping - a leftover newline never
begins a number, so the scan fails there in Go and in this model alike.
(A carriage return directly before such a newline is consumed first in Go;
the error at the newline makes the outcome identical either way.) -/
def isScanSpace (c : Char) : Bool :=
  let n := c.toNat
  decide ((0x09 ≤ n ∧ n ≤ 0x0d ∧ n ≠ 0x0a) ∨ n = 0x20 ∨ n = 0x85 ∨ n = 0xa0 ∨
    n = 0x1680 ∨ (0x2000 ≤ n ∧ n ≤ 0x200a) ∨ n = 0x2028 ∨ n = 0x2029 ∨
    n = 0x202f ∨ n = 0x205f ∨ n = 0x3000)

/-- The value of a digit string. -/
def digitsToNat (ds : List Char) : Nat := ds.foldl (fun a c => 10 * a + (c.toNat - 48)) 0

/-- The leading digit run of `cs`, if non-empty. -/
def scanDecDigits (cs : List Char) : Option Nat :=
  let ds := cs.takeWhile Char.isDigit
  if ds.isEmpty then none else some (digitsToNat ds)

/-- `fmt.Sscanf(s, "%d", &n)`: skip leading whitespace (`isScanSpace`), then an
optional sign and a non-empty digit run; anything after the digit run is
ignored (Go stops scanning there and reports success, having filled its single
operand). -/
def scanInt (cs : List Char) : Option Int :=
  match cs.dropWhile isScanSpace with
  | '-' :: rest => (scanDecDigits rest).map (fun n => -(n : Int))
  | '+' :: rest => (scanDecDigits rest).map (fun n => (n : Int))
  | rest => (scanDecDigits rest).map (fun n => (n : Int))

/-- `invoice.ParseMonth`: numeric parse first (range-checked), otherwise the
first month whose full name or 3-letter prefix matches case-insensitively. -/
def ParseMonth (s : String) : Except String Nat :=
  match scanInt s.data with
  | some n =>
    if n < 1 ∨ 12 < n then Except.error ("month number out of range (1-12)")
    else Except.ok n.toNat
  | none =>
    match (List.range' 1 12).find? (fun m =>
        equalFoldL s.data (monthName m).data ||
        (s.data.length == 3 && equalFoldL s.data ((monthName m).data.take 3))) with
    | some m => Except.ok m
    | none => Except.error ("unrecognized month")

/-- `invoice.ResolveMonthYear(monthStr, year, now)` with `now` in absolute
seconds: empty token defaults to `now.AddDate(0, -1, 0)`'s month (and year,
when no explicit year); otherwise the token is parsed and a zero year is
replaced by `closestYear`. -/
def ResolveMonthYear (monthStr : String) (year : Int) (now : Int) :
    Except String (Nat × Int) :=
  if monthStr = "" then
    Except.ok (monthOf (addDateGo now 0 (-1) 0),
      if year = 0 then yearOf (addDateGo now 0 (-1) 0) else year)
  else
    match ParseMonth monthStr with
    | Except.error e => Except.error e
    | Except.ok month =>
      Except.ok (month, if year = 0 then closestYear month now else year)

/-- The whole string read as an optionally-signed decimal integer (and nothing
else); this is the claim's notion of a string denoting an integer, used only
to compare `ParseMonth` against the spec's words. -/
def intOfString (s : String) : Option Int :=
  match s.data with
  | '-' :: rest =>
    if rest ≠ [] ∧ rest.all Char.isDigit then some (-(digitsToNat rest : Int)) else none
  | '+' :: rest =>
    if rest ≠ [] ∧ rest.all Char.isDigit then some (digitsToNat rest) else none
  | ds => if ds ≠ [] ∧ ds.all Char.isDigit then some (digitsToNat ds) else none

/-- The month parser the spec describes: succeed exactly on integer strings in
1..12, case-insensitive full month names, and 3-letter abbreviations.  Written
from the spec's words, to be compared with `ParseMonth`. -/
def specParseMonth (s : String) : Option Nat :=
  match intOfString s with
  | some n => if 1 ≤ n ∧ n ≤ 12 then some n.toNat else none
  | none =>
    (List.range' 1 12).find? (fun m =>
      equalFoldL s.data (monthName m).data ||
      (s.data.length == 3 && equalFoldL s.data ((monthName m).data.take 3)))

/-- `config.Config`: the six stored fields (`float64` modelled as `Rat`,
`*bool` as `Option Bool`). -/
structure Config where
  vendor : String
  customer : String
  rate : Rat
  hours : Rat
  pdf : Option Bool
  model : String
deriving DecidableEq

/-- What is found at the config path: no file, an unreadable file, or file
contents abstracted to their YAML parse outcome (`none` = malformed). -/
inductive ConfigFile
  | absent
  | unreadable
  | contents (parsed : Option Config)
deriving DecidableEq

/-- `config.Load`: a missing file yields the empty `Config` without error; any
other read failure, or unparseable contents, is an error. -/
def Load : ConfigFile → Except String Config
  | ConfigFile.absent => Except.ok ⟨"", "", 0, 0, none, ""⟩
  | ConfigFile.unreadable => Except.error ("reading config file")
  | ConfigFile.contents none => Except.error ("parsing config file")
  | ConfigFile.contents (some cfg) => Except.ok cfg

/-- The field-by-field merge in `config.Save`: a field of `updates` that is
explicitly set (non-empty string, non-zero number, non-nil pointer) overwrites
the stored field; every other stored field is kept. -/
def mergeConfig (existing updates : Config) : Config :=
  { vendor := if updates.vendor ≠ "" then updates.vendor else existing.vendor
    customer := if updates.customer ≠ "" then updates.customer else existing.customer
    rate := if updates.rate ≠ 0 then updates.rate else existing.rate
    hours := if updates.hours ≠ 0 then updates.hours else existing.hours
    pdf := if updates.pdf.isSome then updates.pdf else existing.pdf
    model := if updates.model ≠ "" then updates.model else existing.model }

/-- `config.Save`: load the existing config (empty when absent), merge the
updates over it, and write the merged record back. -/
def Save (file : ConfigFile) (updates : Config) : Except String ConfigFile :=
  match Load file with
  | Except.error e => Except.error e
  | Except.ok existing => Except.ok (ConfigFile.contents (some (mergeConfig existing updates)))

/-! Basic facts about `countWorkdays`. -/

theorem weeksLoopGo_eq_map (lastDay firstDay : Int) (hpw : Rat) :
    ∀ (fuel : Nat) (wed : Int), (lastDay + 1 - wed).toNat ≤ fuel →
      weeksLoopGo lastDay firstDay hpw fuel wed =
        (List.range (nwWeeks wed lastDay)).map
          (fun (k : Nat) => mkWeek firstDay lastDay (wed + 7 * (k : Int)) hpw) := by
  intro fuel
  induction fuel with
  | zero =>
    intro wed h
    have hw : ¬ wed ≤ lastDay := by omega
    simp [weeksLoopGo, nwWeeks, hw]
  | succ fuel ih =>
    intro wed h
    by_cases hw : wed ≤ lastDay
    · have hnw : nwWeeks wed lastDay = nwWeeks (wed + 7) lastDay + 1 := by
        unfold nwWeeks
        by_cases h7 : wed + 7 ≤ lastDay
        · rw [if_pos hw, if_pos h7]
          omega
        · rw [if_pos hw, if_neg h7]
          omega
      rw [hnw, List.range_succ_eq_map, List.map_cons, List.map_map]
      simp only [weeksLoopGo, if_pos hw]
      rw [ih (wed + 7) (by omega)]
      congr 1
      · norm_num
      · refine List.map_congr_left fun k _ => ?_
        simp only [Function.comp_apply]
        congr 1
        push_cast
        ring
    · have hz : nwWeeks wed lastDay = 0 := by
        unfold nwWeeks
        rw [if_neg hw]
      simp [weeksLoopGo, hw, hz]

theorem weeksForMonth_eq_map (year : Int) (month : Nat) (hpw : Rat) :
    WeeksForMonth year month hpw =
      (List.range (nwWeeks (firstWedOf year month) (lastDayOf year month))).map
        (fun (k : Nat) => mkWeek (firstDayOf year month) (lastDayOf year month)
          (firstWedOf year month + 7 * (k : Int)) hpw) :=
  weeksLoopGo_eq_map _ _ _ _ _ (Nat.le_refl _)

/-! Month arithmetic: month length and the first Wednesday. -/

theorem dateToDays_eq (y : Int) (m : Nat) (h1 : 1 ≤ m) (h2 : m ≤ 12) (d : Int) :
    dateToDays y m d = daysBeforeYear y + (daysBeforeMonth y m : Int) + (d - 1) := by
  simp only [dateToDays]
  rw [show ((m : Int) - 1) / 12 = 0 by omega, show (((m : Int) - 1) % 12).toNat + 1 = m by omega,
    add_zero]

theorem dateToDays13 (y d : Int) :
    dateToDays y 13 d = daysBeforeYear (y + 1) + (daysBeforeMonth (y + 1) 1 : Int) + (d - 1) := by
  simp only [dateToDays]
  norm_num

theorem daysBeforeYear_succ (y : Int) :
    daysBeforeYear (y + 1) = daysBeforeYear y + 365 + (if isLeap y then 1 else 0) := by
  have hleap : isLeap y = true ↔ y % 4 = 0 ∧ (y % 100 ≠ 0 ∨ y % 400 = 0) := by
    simp [isLeap]
  unfold daysBeforeYear
  by_cases hL : isLeap y = true
  · have hA := hleap.mp hL
    rw [if_pos hL]
    omega
  · have hA : ¬ (y % 4 = 0 ∧ (y % 100 ≠ 0 ∨ y % 400 = 0)) := fun hh => hL (hleap.mpr hh)
    rw [if_neg hL]
    omega

theorem dbm_eq (y : Int) (m : Nat) :
    (daysBeforeMonth y m : Int) = daysBefore (m - 1) + (if isLeap y ∧ 3 ≤ m then 1 else 0) := by
  unfold daysBeforeMonth
  split_ifs <;> simp

theorem monthLen (y : Int) (m : Nat) (h1 : 1 ≤ m) (h2 : m ≤ 12) :
    firstDayOf y m + 27 ≤ lastDayOf y m ∧ lastDayOf y m ≤ firstDayOf y m + 30 := by
  unfold firstDayOf lastDayOf
  by_cases hm : m ≤ 11
  · have hc : ((m : Int) + 1) = ((m + 1 : Nat) : Int) := by
      push_cast
      ring
    rw [hc, dateToDays_eq y m h1 h2 1, dateToDays_eq y (m + 1) (by omega) (by omega) 0,
      dbm_eq, dbm_eq]
    interval_cases m <;> simp [daysBefore] <;> (first | (split_ifs <;> omega) | omega)
  · have hm12 : m = 12 := by omega
    subst hm12
    rw [dateToDays_eq y 12 (by omega) (by omega) 1]
    norm_num
    rw [dateToDays13, daysBeforeYear_succ, dbm_eq, dbm_eq]
    simp [daysBefore]
    split_ifs <;> omega

theorem firstWed_facts (y : Int) (m : Nat) :
    firstDayOf y m ≤ firstWedOf y m ∧ firstWedOf y m ≤ firstDayOf y m + 6 ∧
      firstWedOf y m % 7 = 2 := by
  unfold firstWedOf daysToFirstWed weekday
  split_ifs <;> omega

/-! List and loop-index helpers. -/

theorem head?_range_map {α : Type} (g : Nat → α) (n : Nat) (h : 0 < n) :
    ((List.range n).map g).head? = some (g 0) := by
  obtain ⟨n', rfl⟩ : ∃ n', n = n' + 1 := ⟨n - 1, by omega⟩
  rw [List.range_succ_eq_map, List.map_cons]
  rfl

theorem getLast?_range_map {α : Type} (g : Nat → α) (n : Nat) (h : 0 < n) :
    ((List.range n).map g).getLast? = some (g (n - 1)) := by
  obtain ⟨n', rfl⟩ : ∃ n', n = n' + 1 := ⟨n - 1, by omega⟩
  rw [List.range_succ, List.map_append]
  simp

theorem chain'_range_map {α : Type} (R : α → α → Prop) (g : Nat → α) (n : Nat)
    (h : ∀ k : Nat, k + 1 < n → R (g k) (g (k + 1))) :
    List.Chain' R ((List.range n).map g) := by
  rw [List.chain'_map]
  cases n with
  | zero => simp
  | succ n' =>
    rw [List.chain'_range_succ]
    intro m hm
    exact h m (by omega)

theorem mem_weeksForMonth (year : Int) (month : Nat) (hpw : Rat) (w : Week) :
    w ∈ WeeksForMonth year month hpw ↔
      ∃ k : Nat, k < nwWeeks (firstWedOf year month) (lastDayOf year month) ∧
        w = mkWeek (firstDayOf year month) (lastDayOf year month)
          (firstWedOf year month + 7 * (k : Int)) hpw := by
  rw [weeksForMonth_eq_map]
  constructor
  · intro hw
    obtain ⟨k, hk, hwk⟩ := List.mem_map.mp hw
    exact ⟨k, List.mem_range.mp hk, hwk.symm⟩
  · rintro ⟨k, hk, rfl⟩
    exact List.mem_map.mpr ⟨k, List.mem_range.mpr hk, rfl⟩

theorem nwWeeks_pos (y : Int) (m : Nat) (h1 : 1 ≤ m) (h2 : m ≤ 12) :
    0 < nwWeeks (firstWedOf y m) (lastDayOf y m) := by
  have hf := firstWed_facts y m
  have hl := monthLen y m h1 h2
  unfold nwWeeks
  rw [if_pos (by omega)]
  omega

theorem wedK_le (w l : Int) (k : Nat) (hk : k < nwWeeks w l) : w + 7 * (k : Int) ≤ l := by
  unfold nwWeeks at hk
  by_cases hw : w ≤ l
  · rw [if_pos hw] at hk
    omega
  · rw [if_neg hw] at hk
    omega

theorem wedLast_facts (w l : Int) (hw : w ≤ l) :
    w + 7 * ((nwWeeks w l - 1 : Nat) : Int) ≤ l ∧
      l ≤ w + 7 * ((nwWeeks w l - 1 : Nat) : Int) + 6 := by
  unfold nwWeeks
  rw [if_pos hw]
  omega

theorem mkWeek_start (f l wed : Int) (hpw : Rat) : (mkWeek f l wed hpw).start = wStart f wed := rfl

theorem mkWeek_end (f l wed : Int) (hpw : Rat) : (mkWeek f l wed hpw).end_ = wEnd l wed := rfl

theorem cover_chain (s e : Nat → Int) :
    ∀ n : Nat, 0 < n → (∀ k, k + 1 < n → s (k + 1) = e k + 1) →
      (∀ k, k < n → s k ≤ e k) → ∀ d : Int,
      ((∃ k, k < n ∧ s k ≤ d ∧ d ≤ e k) ↔ (s 0 ≤ d ∧ d ≤ e (n - 1))) := by
  intro n
  induction n with
  | zero => intro h; exact (Nat.lt_irrefl 0 h).elim
  | succ n ih =>
    intro _ hchain hse d
    simp only [Nat.add_sub_cancel]
    rcases Nat.eq_zero_or_pos n with hn | hn
    · subst hn
      constructor
      · rintro ⟨k, hk, hs, he⟩
        have hk0 : k = 0 := by omega
        subst hk0
        exact ⟨hs, he⟩
      · rintro ⟨hs, he⟩
        exact ⟨0, by omega, hs, he⟩
    · have ihh := ih hn (fun k hk => hchain k (by omega)) (fun k hk => hse k (by omega))
      have hcn : s n = e (n - 1) + 1 := by
        have hcc := hchain (n - 1) (by omega)
        rwa [show n - 1 + 1 = n by omega] at hcc
      have hsen : s n ≤ e n := hse n (by omega)
      have hs0 : s 0 ≤ e (n - 1) := by
        have hw : ∃ k, k < n ∧ s k ≤ e (n - 1) ∧ e (n - 1) ≤ e k :=
          ⟨n - 1, by omega, hse (n - 1) (by omega), le_refl _⟩
        exact ((ihh (e (n - 1))).mp hw).1
      constructor
      · rintro ⟨k, hk, hks, hke⟩
        by_cases hkn : k < n
        · have hin := (ihh d).mp ⟨k, hkn, hks, hke⟩
          exact ⟨hin.1, by omega⟩
        · have hk' : k = n := by omega
          subst hk'
          exact ⟨by omega, hke⟩
      · rintro ⟨h1, h2⟩
        by_cases hd : d ≤ e (n - 1)
        · obtain ⟨k, hk, hks, hke⟩ := (ihh d).mpr ⟨h1, hd⟩
          exact ⟨k, by omega, hks, hke⟩
        · exact ⟨n, by omega, by omega, h2⟩

theorem wStart_eq_max (f wed : Int) : wStart f wed = max f (wed - 2) := by
  unfold wStart
  split_ifs <;> omega

theorem wEnd_eq_min (l wed : Int) : wEnd l wed = min l (wed + 4) := by
  unfold wEnd
  split_ifs <;> omega

/-! Shared structural facts of the week list of a month. -/

theorem weeksForMonth_chain_data (y : Int) (m : Nat)
    (hm1 : 1 ≤ m) (hm2 : m ≤ 12) :
    (∀ k : Nat, k + 1 < nwWeeks (firstWedOf y m) (lastDayOf y m) →
      wStart (firstDayOf y m) (firstWedOf y m + 7 * ((k + 1 : Nat) : Int)) =
        wEnd (lastDayOf y m) (firstWedOf y m + 7 * (k : Int)) + 1) ∧
    (∀ k : Nat, k < nwWeeks (firstWedOf y m) (lastDayOf y m) →
      wStart (firstDayOf y m) (firstWedOf y m + 7 * (k : Int)) ≤
        wEnd (lastDayOf y m) (firstWedOf y m + 7 * (k : Int))) := by
  have hf := firstWed_facts y m
  have hl := monthLen y m hm1 hm2
  constructor
  · intro k hk
    have h1 := wedK_le (firstWedOf y m) (lastDayOf y m) (k + 1) hk
    unfold wStart wEnd
    push_cast at h1 ⊢
    split_ifs <;> omega
  · intro k hk
    have h1 := wedK_le (firstWedOf y m) (lastDayOf y m) k hk
    have h2 : (0 : Int) ≤ 7 * (k : Int) := by positivity
    unfold wStart wEnd
    split_ifs <;> omega

/-- C1 (amended): for any month the returned weeks are non-empty, consecutive
weeks chain exactly (`next.start = prev.end + 1`, so they are contiguous and
non-overlapping), every week has `start ≤ end`, and the union of the clamped
ranges is exactly the interval from the first week's start to the last week's
end; that interval sits inside the month but can omit up to four leading days
(month starting Thursday-Sunday) and up to two trailing days (month ending
Monday or Tuesday), so it does not always cover the whole month. -/
theorem weeksForMonth_contiguous_cover (y : Int) (m : Nat) (hpw : Rat)
    (hm1 : 1 ≤ m) (hm2 : m ≤ 12) :
    ∃ a b, (WeeksForMonth y m hpw).head? = some a ∧
      (WeeksForMonth y m hpw).getLast? = some b ∧
      List.Chain' (fun u v => v.start = u.end_ + 1) (WeeksForMonth y m hpw) ∧
      (∀ w ∈ WeeksForMonth y m hpw, w.start ≤ w.end_) ∧
      firstDayOf y m ≤ a.start ∧ a.start ≤ firstDayOf y m + 4 ∧
      lastDayOf y m - 2 ≤ b.end_ ∧ b.end_ ≤ lastDayOf y m ∧
      (∀ d : Int, (∃ w ∈ WeeksForMonth y m hpw, w.start ≤ d ∧ d ≤ w.end_) ↔
        a.start ≤ d ∧ d ≤ b.end_) := by
  have hf := firstWed_facts y m
  have hl := monthLen y m hm1 hm2
  have hn : 0 < nwWeeks (firstWedOf y m) (lastDayOf y m) := nwWeeks_pos y m hm1 hm2
  obtain ⟨hchain, hse⟩ := weeksForMonth_chain_data y m hm1 hm2
  have hlastw := wedLast_facts (firstWedOf y m) (lastDayOf y m) (by omega)
  refine ⟨mkWeek (firstDayOf y m) (lastDayOf y m)
      (firstWedOf y m + 7 * ((0 : Nat) : Int)) hpw,
    mkWeek (firstDayOf y m) (lastDayOf y m)
      (firstWedOf y m + 7 * ((nwWeeks (firstWedOf y m) (lastDayOf y m) - 1 : Nat) : Int)) hpw,
    ?_, ?_, ?_, ?_, ?_, ?_, ?_, ?_, ?_⟩
  · rw [weeksForMonth_eq_map]
    exact head?_range_map _ _ hn
  · rw [weeksForMonth_eq_map]
    exact getLast?_range_map _ _ hn
  · rw [weeksForMonth_eq_map]
    refine chain'_range_map _ _ _ fun k hk => ?_
    simp only [mkWeek_start, mkWeek_end]
    exact hchain k hk
  · intro w hw
    obtain ⟨k, hk, rfl⟩ := (mem_weeksForMonth y m hpw w).mp hw
    simp only [mkWeek_start, mkWeek_end]
    exact hse k hk
  · simp only [mkWeek_start, wStart]
    norm_num
    split_ifs <;> omega
  · simp only [mkWeek_start, wStart]
    norm_num
    split_ifs <;> omega
  · simp only [mkWeek_end, wEnd]
    split_ifs <;> omega
  · simp only [mkWeek_end, wEnd]
    split_ifs <;> omega
  · intro d
    have hcov := cover_chain
      (fun k => wStart (firstDayOf y m) (firstWedOf y m + 7 * (k : Int)))
      (fun k => wEnd (lastDayOf y m) (firstWedOf y m + 7 * (k : Int)))
      (nwWeeks (firstWedOf y m) (lastDayOf y m)) hn hchain hse d
    simp only [mkWeek_start, mkWeek_end]
    constructor
    · rintro ⟨w, hw, hds, hde⟩
      obtain ⟨k, hk, rfl⟩ := (mem_weeksForMonth y m hpw w).mp hw
      simp only [mkWeek_start, mkWeek_end] at hds hde
      exact hcov.mp ⟨k, hk, hds, hde⟩
    · intro hd
      obtain ⟨k, hk, hds, hde⟩ := hcov.mpr hd
      refine ⟨mkWeek (firstDayOf y m) (lastDayOf y m)
          (firstWedOf y m + 7 * (k : Int)) hpw,
        (mem_weeksForMonth y m hpw _).mpr ⟨k, hk, rfl⟩, ?_, ?_⟩
      · simpa only [mkWeek_start] using hds
      · simpa only [mkWeek_end] using hde

/-- C1 counterexample: June 2025 begins on a Sunday; every week returned for
June 2025 starts strictly after June 1, so the union of the clamped ranges
does not cover the month's first day, refuting full-month coverage. -/
theorem weeksForMonth_gap_jun2025 :
    (WeeksForMonth 2025 6 40).all
      (fun w => decide (firstDayOf 2025 6 < w.start)) = true ∧
    (WeeksForMonth 2025 6 40) ≠ [] := by
  constructor
  · decide
  · decide

/-- C1 witness: the amended statement instantiated at June 2025. -/
theorem weeksForMonth_contiguous_cover_witness :
    1 ≤ 6 ∧ 6 ≤ 12 ∧
    ∃ a b, (WeeksForMonth 2025 6 40).head? = some a ∧
      (WeeksForMonth 2025 6 40).getLast? = some b ∧
      List.Chain' (fun u v => v.start = u.end_ + 1) (WeeksForMonth 2025 6 40) ∧
      (∀ w ∈ WeeksForMonth 2025 6 40, w.start ≤ w.end_) ∧
      firstDayOf 2025 6 ≤ a.start ∧ a.start ≤ firstDayOf 2025 6 + 4 ∧
      lastDayOf 2025 6 - 2 ≤ b.end_ ∧ b.end_ ≤ lastDayOf 2025 6 ∧
      (∀ d : Int, (∃ w ∈ WeeksForMonth 2025 6 40, w.start ≤ d ∧ d ≤ w.end_) ↔
        a.start ≤ d ∧ d ≤ b.end_) :=
  ⟨by decide, by decide, weeksForMonth_contiguous_cover 2025 6 40 (by decide) (by decide)⟩

/-- C3: a Monday-Sunday week is in the output exactly when its Wednesday lies
in the month: every returned week is the clamp of a natural span whose
Wednesday is in the month, every Wednesday in the month contributes its
clamped week, and the weeks are in chronological order. -/
theorem weeksForMonth_wednesday_rule (y : Int) (m : Nat) (hpw : Rat)
    (hm1 : 1 ≤ m) (hm2 : m ≤ 12) :
    (∀ w ∈ WeeksForMonth y m hpw, ∃ wed : Int, weekday wed = 3 ∧
        firstDayOf y m ≤ wed ∧ wed ≤ lastDayOf y m ∧
        w.start = max (firstDayOf y m) (wed - 2) ∧
        w.end_ = min (lastDayOf y m) (wed + 4)) ∧
    (∀ wed : Int, weekday wed = 3 → firstDayOf y m ≤ wed → wed ≤ lastDayOf y m →
        ∃ w ∈ WeeksForMonth y m hpw, w.start = max (firstDayOf y m) (wed - 2) ∧
          w.end_ = min (lastDayOf y m) (wed + 4)) ∧
    List.Chain' (fun u v => u.start < v.start) (WeeksForMonth y m hpw) := by
  have hf := firstWed_facts y m
  refine ⟨?_, ?_, ?_⟩
  · intro w hw
    obtain ⟨k, hk, rfl⟩ := (mem_weeksForMonth y m hpw w).mp hw
    have hwl := wedK_le (firstWedOf y m) (lastDayOf y m) k hk
    have h7 : (0 : Int) ≤ 7 * (k : Int) := by positivity
    refine ⟨firstWedOf y m + 7 * (k : Int), ?_, by omega, hwl, ?_, ?_⟩
    · unfold weekday
      omega
    · rw [mkWeek_start, wStart_eq_max]
    · rw [mkWeek_end, wEnd_eq_min]
  · intro wed hwd hfwed hwedl
    have h2 : wed % 7 = 2 := by
      unfold weekday at hwd
      omega
    have hge : firstWedOf y m ≤ wed := by omega
    have hkeq : firstWedOf y m + 7 * (((wed - firstWedOf y m) / 7).toNat : Int) = wed := by
      omega
    refine ⟨mkWeek (firstDayOf y m) (lastDayOf y m)
        (firstWedOf y m + 7 * (((wed - firstWedOf y m) / 7).toNat : Int)) hpw,
      (mem_weeksForMonth y m hpw _).mpr ⟨((wed - firstWedOf y m) / 7).toNat, ?_, rfl⟩, ?_, ?_⟩
    · unfold nwWeeks
      rw [if_pos (by omega)]
      omega
    · rw [mkWeek_start, hkeq, wStart_eq_max]
    · rw [mkWeek_end, hkeq, wEnd_eq_min]
  · rw [weeksForMonth_eq_map]
    refine chain'_range_map _ _ _ fun k hk => ?_
    have hwl := wedK_le (firstWedOf y m) (lastDayOf y m) (k + 1) hk
    have h7 : (0 : Int) ≤ 7 * (k : Int) := by positivity
    simp only [mkWeek_start]
    unfold wStart
    push_cast at hwl ⊢
    split_ifs <;> omega

/-- C3 witness: the statement instantiated at January 2025, 40 h/week. -/
theorem weeksForMonth_wednesday_rule_witness :
    1 ≤ 1 ∧ 1 ≤ 12 ∧
    ((∀ w ∈ WeeksForMonth 2025 1 40, ∃ wed : Int, weekday wed = 3 ∧
        firstDayOf 2025 1 ≤ wed ∧ wed ≤ lastDayOf 2025 1 ∧
        w.start = max (firstDayOf 2025 1) (wed - 2) ∧
        w.end_ = min (lastDayOf 2025 1) (wed + 4)) ∧
    (∀ wed : Int, weekday wed = 3 → firstDayOf 2025 1 ≤ wed → wed ≤ lastDayOf 2025 1 →
        ∃ w ∈ WeeksForMonth 2025 1 40, w.start = max (firstDayOf 2025 1) (wed - 2) ∧
          w.end_ = min (lastDayOf 2025 1) (wed + 4)) ∧
    List.Chain' (fun u v => u.start < v.start) (WeeksForMonth 2025 1 40)) :=
  ⟨by decide, by decide, weeksForMonth_wednesday_rule 2025 1 40 (by decide) (by decide)⟩

/-- C4: evaluation of the empty-token default of `ResolveMonthYear`.  At the
mid-month instants of the spec's examples the result is the preceding month,
but at 2025-03-31 the code returns March 2025 - `AddDate(0, -1, 0)` builds
February 31, which `time.Date` normalizes to March 3 - contradicting the
function's own documentation ("defaults to the previous month"). -/
theorem resolveMonthYear_prevMonth_slip :
    ResolveMonthYear "" 0 (dateToDays 2025 3 15 * 86400) = Except.ok (2, 2025) ∧
    ResolveMonthYear "" 0 (dateToDays 2025 1 10 * 86400) = Except.ok (12, 2024) ∧
    ResolveMonthYear "" 0 (dateToDays 2025 3 31 * 86400) = Except.ok (3, 2025) :=
  ⟨rfl, rfl, rfl⟩

/-- C5 (amended): with a parsed month token and year 0, `ResolveMonthYear`
returns `closestYear`, which picks among now's year, the previous and the next
year one at minimal distance from `now` to the first of the month - but a tie
keeps the earlier-checked candidate in the order (current, previous, next), so
a tie between the previous and the current year resolves to the current
(larger) year, not the smaller one. -/
theorem closestYear_minimizes (s : String) (month : Nat) (now : Int)
    (hs : ParseMonth s = Except.ok month) :
    ResolveMonthYear s 0 now = Except.ok (month, closestYear month now) ∧
      closestYearSpec month now := by
  constructor
  · have hne : s ≠ "" := by
      intro he
      subst he
      rw [show ParseMonth "" = Except.error ("unrecognized month") from rfl] at hs
      exact Except.noConfusion hs
    simp only [ResolveMonthYear, if_neg hne, hs, if_true]
  · unfold closestYearSpec
    simp only [closestYear, List.foldl_cons, List.foldl_nil]
    split_ifs <;> dsimp only <;>
      exact ⟨by omega, by omega, by omega, by omega, by omega, by omega⟩

/-- C5 counterexample: noon on 2025-06-01 is exactly equidistant from
2024-12-01 and 2025-12-01; resolving "december" there returns 2025, the
larger year, not the smaller 2024 the claim requires on a tie. -/
theorem closestYear_tie_dec2025 :
    absDuration ((dateToDays 2025 6 1 * 86400 + 43200) - dateToDays 2024 12 1 * 86400) =
      absDuration ((dateToDays 2025 6 1 * 86400 + 43200) - dateToDays 2025 12 1 * 86400) ∧
    ResolveMonthYear "december" 0 (dateToDays 2025 6 1 * 86400 + 43200) =
      Except.ok (12, 2025) :=
  ⟨rfl, rfl⟩

/-- C5 witness: the spec's "november from 2025-03-15" example resolves to
year 2024 and satisfies the amended minimality statement. -/
theorem closestYear_minimizes_witness :
    ParseMonth "november" = Except.ok 11 ∧
    (ResolveMonthYear "november" 0 (dateToDays 2025 3 15 * 86400) =
        Except.ok (11, closestYear 11 (dateToDays 2025 3 15 * 86400)) ∧
      closestYearSpec 11 (dateToDays 2025 3 15 * 86400)) ∧
    closestYear 11 (dateToDays 2025 3 15 * 86400) = 2024 :=
  ⟨rfl, closestYear_minimizes "november" 11 (dateToDays 2025 3 15 * 86400) rfl, rfl⟩

/-! Month-name matching: fold-normal forms and uniqueness. -/

theorem equalFoldL_iff (as : List Char) : ∀ bs : List Char,
    (equalFoldL as bs = true ↔ as.map foldChar = bs.map foldChar) := by
  induction as with
  | nil =>
    intro bs
    cases bs <;> simp [equalFoldL]
  | cons a as ih =>
    intro bs
    cases bs with
    | nil => simp [equalFoldL]
    | cons b bs =>
      simp [equalFoldL, Bool.and_eq_true, beq_iff_eq, ih bs]

theorem monthName_fold_unique :
    ∀ a ∈ List.range' 1 12, ∀ b ∈ List.range' 1 12,
      (((monthName a).data.map foldChar = (monthName b).data.map foldChar → a = b) ∧
        ((monthName a).data.map foldChar = ((monthName b).data.take 3).map foldChar → a = b) ∧
        (((monthName a).data.take 3).map foldChar = ((monthName b).data.take 3).map foldChar →
          a = b)) := by
  decide

/-- C6 (amended): `ParseMonth` succeeds on `s` with month `m` exactly when
either the `Sscanf`-style integer prefix of `s` (leading spaces skipped, any
trailing characters ignored) has value `m` in 1..12, or `s` has no integer
prefix and matches month `m`'s full name or 3-letter abbreviation
case-insensitively.  In particular the match is unambiguous: no input matches
two different months. -/
theorem parseMonth_characterization (s : String) (m : Nat) :
    ParseMonth s = Except.ok m ↔
      ((∃ n : Int, scanInt s.data = some n ∧ 1 ≤ n ∧ n ≤ 12 ∧ m = n.toNat) ∨
        (scanInt s.data = none ∧ 1 ≤ m ∧ m ≤ 12 ∧
          (equalFoldL s.data (monthName m).data = true ∨
            (s.data.length = 3 ∧ equalFoldL s.data ((monthName m).data.take 3) = true)))) := by
  unfold ParseMonth
  cases hscan : scanInt s.data with
  | some n =>
    dsimp only
    by_cases hr : n < 1 ∨ 12 < n
    · rw [if_pos hr]
      constructor
      · intro h
        exact Except.noConfusion h
      · rintro (⟨n', hn', h1, h2, rfl⟩ | ⟨hnone, _⟩)
        · injection hn' with he
          omega
        · exact Option.noConfusion hnone
    · rw [if_neg hr]
      constructor
      · intro h
        injection h with he
        exact Or.inl ⟨n, rfl, by omega, by omega, he.symm⟩
      · rintro (⟨n', hn', h1, h2, rfl⟩ | ⟨hnone, _⟩)
        · injection hn' with he
          subst he
          rfl
        · exact Option.noConfusion hnone
  | none =>
    dsimp only
    have hpred : ∀ k : Nat,
        (equalFoldL s.data (monthName k).data ||
          (s.data.length == 3 && equalFoldL s.data ((monthName k).data.take 3))) = true ↔
        (equalFoldL s.data (monthName k).data = true ∨
          (s.data.length = 3 ∧ equalFoldL s.data ((monthName k).data.take 3) = true)) := by
      intro k
      simp [Bool.or_eq_true, Bool.and_eq_true, beq_iff_eq]
    cases hfind : (List.range' 1 12).find? (fun k =>
        equalFoldL s.data (monthName k).data ||
        (s.data.length == 3 && equalFoldL s.data ((monthName k).data.take 3))) with
    | some m0 =>
      have hmem := List.mem_of_find?_eq_some hfind
      have hbounds := List.mem_range'_1.mp hmem
      have hp0 := @List.find?_some Nat
        (fun k => equalFoldL s.data (monthName k).data ||
          (s.data.length == 3 && equalFoldL s.data ((monthName k).data.take 3)))
        m0 (List.range' 1 12) hfind
      have hp := (hpred m0).mp hp0
      constructor
      · intro h
        injection h with he
        subst he
        exact Or.inr ⟨rfl, by omega, by omega, hp⟩
      · rintro (⟨n', hn', _, _, rfl⟩ | ⟨_, h1, h2, hmatch⟩)
        · exact Option.noConfusion hn'
        · have hmmem : m ∈ List.range' 1 12 := List.mem_range'_1.mpr ⟨h1, by omega⟩
          have huniq := monthName_fold_unique m0 hmem m hmmem
          have hm0m : m0 = m := by
            rcases hp with hfull0 | ⟨hlen0, habb0⟩ <;>
              rcases hmatch with hfullm | ⟨hlenm, habbm⟩
            · exact huniq.1
                (((equalFoldL_iff _ _).mp hfull0).symm.trans ((equalFoldL_iff _ _).mp hfullm))
            · exact huniq.2.1
                (((equalFoldL_iff _ _).mp hfull0).symm.trans ((equalFoldL_iff _ _).mp habbm))
            · exact ((monthName_fold_unique m hmmem m0 hmem).2.1
                (((equalFoldL_iff _ _).mp hfullm).symm.trans ((equalFoldL_iff _ _).mp habb0))).symm
            · exact huniq.2.2
                (((equalFoldL_iff _ _).mp habb0).symm.trans ((equalFoldL_iff _ _).mp habbm))
          rw [hm0m]
    | none =>
      constructor
      · intro h
        exact Except.noConfusion h
      · rintro (⟨n', hn', _, _, rfl⟩ | ⟨_, h1, h2, hmatch⟩)
        · exact Option.noConfusion hn'
        · have hmmem : m ∈ List.range' 1 12 := List.mem_range'_1.mpr ⟨h1, by omega⟩
          have hnone := List.find?_eq_none.mp hfind m hmmem
          rw [hpred m] at hnone
          exact absurd hmatch hnone

/-- C6 counterexample: `Sscanf` stops at the first non-digit, so the code
accepts "3abc" as March, though it is neither an integer string nor a month
name nor an abbreviation, which the claim requires to fail. -/
theorem parseMonth_trailing_junk :
    ParseMonth "3abc" = Except.ok 3 ∧ specParseMonth "3abc" = none :=
  ⟨rfl, rfl⟩

/-- C8: saving over a stored record overwrites exactly the explicitly provided
update fields - non-empty strings, non-zero numbers, a non-nil pdf pointer -
and keeps every other stored field; in particular an update with a single
field set leaves the five other stored fields unchanged. -/
theorem save_merges_exactly (stored updates : Config) :
    Save (ConfigFile.contents (some stored)) updates =
      Except.ok (ConfigFile.contents (some
        { vendor := if updates.vendor = "" then stored.vendor else updates.vendor
          customer := if updates.customer = "" then stored.customer else updates.customer
          rate := if updates.rate = 0 then stored.rate else updates.rate
          hours := if updates.hours = 0 then stored.hours else updates.hours
          pdf := if updates.pdf = none then stored.pdf else updates.pdf
          model := if updates.model = "" then stored.model else updates.model })) := by
  cases hu : updates.pdf <;>
    simp [Save, Load, mergeConfig, hu, ite_not]

/-- C10: loading from a path with no file yields the empty configuration and
no error; an error arises exactly for a read failure other than non-existence
or for stored contents that fail to parse. -/
theorem load_missing_and_errors :
    Load ConfigFile.absent = Except.ok ⟨"", "", 0, 0, none, ""⟩ ∧
    ∀ file : ConfigFile, (∃ e, Load file = Except.error e) ↔
      (file = ConfigFile.unreadable ∨ file = ConfigFile.contents none) := by
  refine ⟨rfl, ?_⟩
  intro file
  cases file with
  | absent => simp [Load]
  | unreadable => simp [Load]
  | contents p =>
    cases p with
    | none => simp [Load]
    | some cfg => simp [Load]

end Invoicer
